import Mathlib

/-!
Verification of the Campaign-Details sheet-ingestion pipeline: a shallow
embedding of the CSV tokenizer (`parseCSVRow`), the field-mapping module
(`findColumnHeader`, `validateSheetStructure`) and the row-normalization
core of `fetchSheetData`, together with theorems settling the spec claims.
Strings are manipulated through their character lists so that all
definitions compute by kernel reduction.
-/

namespace Campaign

/-- Whitespace characters removed by the JS `String.prototype.trim` on the
ASCII data this pipeline handles. -/
def isSpaceChar (c : Char) : Bool :=
  c == ' ' || c == '\t' || c == '\n' || c == '\r' || c == '\x0b' || c == '\x0c'

/-- Trim leading and trailing whitespace from a character list. -/
def trimL (l : List Char) : List Char :=
  ((l.dropWhile isSpaceChar).reverse.dropWhile isSpaceChar).reverse

/-- Trim a string, JS `s.trim()`. -/
def trimS (s : String) : String :=
  String.mk (trimL s.toList)

/-- ASCII lowercase of one character, JS `toLowerCase` on the ASCII range. -/
def lowerChar (c : Char) : Char :=
  if 'A' ≤ c ∧ c ≤ 'Z' then Char.ofNat (c.toNat + 32) else c

/-- ASCII lowercase of a string, JS `s.toLowerCase()`. -/
def lowerS (s : String) : String :=
  String.mk (s.toList.map lowerChar)

/-- Remove every double quote from a string, JS `s.replace(/"/g, '')`. -/
def stripQuotes (s : String) : String :=
  String.mk (s.toList.filter (fun c => !(c == '"')))

/-- Whether `sub` occurs as a contiguous run inside `l`. -/
def isSubL : List Char → List Char → Bool
  | sub, [] => sub.isEmpty
  | sub, c :: rest => sub.isPrefixOf (c :: rest) || isSubL sub rest

/-- JS `hay.includes(sub)` for strings. -/
def strIncludes (hay sub : String) : Bool :=
  isSubL sub.toList hay.toList

/-- JS `s.startsWith(p)` for strings. -/
def startsWithS (s p : String) : Bool :=
  p.toList.isPrefixOf s.toList

/-- Split a character list at every occurrence of `sep` (JS `split`). -/
def splitOnC (sep : Char) : List Char → List (List Char)
  | [] => [[]]
  | c :: rest =>
    if c = sep then [] :: splitOnC sep rest
    else
      match splitOnC sep rest with
      | [] => [[c]]
      | f :: fs => (c :: f) :: fs

/-- The scan loop of `parseCSVRow` (src/lib/sheetUtils.ts, lines 43-59):
`cur` is the accumulator `current`, `inQ` the `inQuotes` flag.  The doubled
double-quote test comes first, exactly as in the source, regardless of the
`inQuotes` state. -/
def parseCSVRowAux : List Char → List Char → Bool → List (List Char)
  | [], cur, _ => [trimL cur]
  | '"' :: '"' :: rest, cur, inQ => parseCSVRowAux rest (cur ++ ['"']) inQ
  | '"' :: rest, cur, inQ => parseCSVRowAux rest cur (!inQ)
  | ',' :: rest, cur, false => trimL cur :: parseCSVRowAux rest [] false
  | c :: rest, cur, inQ => parseCSVRowAux rest (cur ++ [c]) inQ

/-- `parseCSVRow` from src/lib/sheetUtils.ts, lines 38-61. -/
def parseCSVRow (row : String) : List String :=
  (parseCSVRowAux row.toList [] false).map (fun l => String.mk l)

/-- One entry of `FORM_FIELDS` (src/unnamed/part_000 = fieldMapping.ts,
lines 3-9).  `options` is `[]` where the source omits it. -/
structure FormField where
  formKey : String
  displayName : String
  required : Bool
  type : String
  options : List String
deriving DecidableEq

/-- `FORM_FIELDS` from fieldMapping.ts, lines 12-100. -/
def FORM_FIELDS : List FormField :=
  [⟨"campaignName", "Campaign Name", true, "text", []⟩,
   ⟨"influencersFollowers", "Influencers Followers", true, "text", []⟩,
   ⟨"campaignType", "Campaign Type", true, "select",
     ["Brand Collaboration", "Product Launch", "Event Promotion", "Content Creation", "Other"]⟩,
   ⟨"startDate", "Start Date", true, "date", []⟩,
   ⟨"brandName", "Brand Name", true, "text", []⟩,
   ⟨"endDate", "End Date", true, "date", []⟩,
   ⟨"niche", "Niche", true, "text", []⟩,
   ⟨"priority", "Priority", true, "select", ["High", "Medium", "Low"]⟩,
   ⟨"budget", "Budget", true, "number", []⟩,
   ⟨"notes", "Notes", false, "textarea", []⟩,
   ⟨"deliverables", "Deliverables", true, "textarea", []⟩,
   ⟨"platforms", "Platforms", true, "platforms", ["Instagram", "Facebook", "YouTube"]⟩,
   ⟨"attachment", "Attachment", false, "file", []⟩,
   ⟨"timestamp", "Submission Date", false, "date", []⟩]

/-- `EXPECTED_SHEET_HEADERS` from fieldMapping.ts, line 103. -/
def EXPECTED_SHEET_HEADERS : List String :=
  FORM_FIELDS.map (fun f => f.displayName)

/-- `FIELD_MAPPING` from fieldMapping.ts, lines 106-121, as a total lookup
returning `[]` for keys outside the record (the source reads
`FIELD_MAPPING[displayName] || []`). -/
def FIELD_MAPPING (displayName : String) : List String :=
  if displayName = "Campaign Name" then
    ["campaign name", "campaign_name", "campaignname", "campaign"]
  else if displayName = "Influencers Followers" then
    ["influencers followers", "influencers_followers", "influencersfollowers", "followers",
     "influencer count"]
  else if displayName = "Campaign Type" then
    ["campaign type", "campaign_type", "campaigntype", "type"]
  else if displayName = "Start Date" then
    ["start date", "start_date", "startdate", "start", "campaign start"]
  else if displayName = "Brand Name" then
    ["brand name", "brand_name", "brandname", "brand"]
  else if displayName = "End Date" then
    ["end date", "end_date", "enddate", "end", "campaign end"]
  else if displayName = "Niche" then
    ["niche", "category", "industry"]
  else if displayName = "Priority" then
    ["priority", "urgency", "level"]
  else if displayName = "Budget" then
    ["budget", "amount", "cost", "price"]
  else if displayName = "Notes" then
    ["notes", "comments", "description", "additional info"]
  else if displayName = "Deliverables" then
    ["deliverables", "requirements", "scope", "what to deliver"]
  else if displayName = "Platforms" then
    ["platforms", "social media", "channels", "platform"]
  else if displayName = "Attachment" then
    ["attachment", "file", "document", "upload"]
  else if displayName = "Submission Date" then
    ["submission date", "submission_date", "submissiondate", "timestamp", "created",
     "date submitted"]
  else []

/-- The variant loop of `findColumnHeader` (fieldMapping.ts, lines 142-149):
for each variation in order, return the first sheet header where one of the
two lowercased strings contains the other. -/
def firstVariantMatch : List String → List String → Option String
  | [], _ => none
  | v :: vs, hs =>
    match hs.find? (fun h =>
        strIncludes (lowerS h) (lowerS v) || strIncludes (lowerS v) (lowerS h)) with
    | some m => some m
    | none => firstVariantMatch vs hs

/-- `findColumnHeader` from fieldMapping.ts, lines 124-152. -/
def findColumnHeader (formFieldName : String) (sheetHeaders : List String) : Option String :=
  match FORM_FIELDS.find? (fun f => f.formKey == formFieldName) with
  | none => none
  | some field =>
    if sheetHeaders.contains field.displayName then
      some field.displayName
    else
      match sheetHeaders.find? (fun h => lowerS h == lowerS field.displayName) with
      | some m => some m
      | none => firstVariantMatch (FIELD_MAPPING field.displayName) sheetHeaders

/-- The result shape of `validateSheetStructure` (fieldMapping.ts, 215-220),
with `suggestions` as an association list in insertion order. -/
structure ValidationReport where
  isValid : Bool
  missingFields : List String
  extraFields : List String
  suggestions : List (String × String)
deriving DecidableEq

/-- `validateSheetStructure` from fieldMapping.ts, lines 215-258. -/
def validateSheetStructure (sheetHeaders : List String) : ValidationReport :=
  let missingFields :=
    (FORM_FIELDS.filter
      (fun f => f.required && (findColumnHeader f.formKey sheetHeaders).isNone)).map
      (fun f => f.displayName)
  let extraFields :=
    sheetHeaders.filter (fun h => !(FORM_FIELDS.any (fun f => f.displayName == h)))
  let suggestions :=
    extraFields.filterMap (fun h =>
      (FORM_FIELDS.find? (fun f =>
          strIncludes (lowerS f.displayName) (lowerS h) ||
          strIncludes (lowerS h) (lowerS f.displayName))).map
        (fun f => (h, f.displayName)))
  ⟨missingFields.isEmpty, missingFields, extraFields, suggestions⟩

/-- JS object assignment `obj[k] = v` on a record kept as an association
list in insertion order: an existing key keeps its position and gets the
new value, a new key is appended. -/
def objInsert (obj : List (String × String)) (k v : String) : List (String × String) :=
  if obj.any (fun p => p.1 == k) then
    obj.map (fun p => if p.1 == k then (k, v) else p)
  else
    obj ++ [(k, v)]

/-- Whether a record carries key `k`. -/
def recHasKey (rec : List (String × String)) (k : String) : Bool :=
  rec.any (fun p => p.1 == k)

/-- The column configuration `fetchSheetData` computes from the header row
(src/lib/sheetUtils.ts, lines 120-140): the three excluded positions
(`none` models the JS `-1`) and the filtered headers. -/
structure ColCfg where
  emailTemplateIdx : Option Nat
  idColumnIdx : Option Nat
  sheetIdIdx : Option Nat
  headers : List String
deriving DecidableEq

/-- Keep a list entry at position `idx` iff `idx` differs from all three
excluded positions (JS `idx !== e && idx !== i && idx !== s`, where a
missing column is `-1` and hence never equal). -/
def filterByIdx (l : List String) (e i s : Option Nat) : List String :=
  (l.enum.filter (fun p =>
    !(some p.1 == e) && !(some p.1 == i) && !(some p.1 == s))).map (fun p => p.2)

/-- The key under which `fetchSheetData` stores one header's value
(sheetUtils.ts, line 168): `findColumnHeader(header, EXPECTED_SHEET_HEADERS)
|| header`. -/
def mappedKey (h : String) : String :=
  (findColumnHeader h EXPECTED_SHEET_HEADERS).getD h

/-- The `filteredHeaders.forEach` body of `fetchSheetData` (sheetUtils.ts,
lines 164-171): builds the record object and the composite duplicate key.
`idx` tracks the position inside `filteredHeaders`. -/
def buildRow (hs : List String) (vals : List String) (idx : Nat)
    (obj : List (String × String)) (key : String) : List (String × String) × String :=
  match hs with
  | [] => (obj, key)
  | h :: rest =>
    let v := vals.getD idx ""
    buildRow rest vals (idx + 1) (objInsert obj (mappedKey h) v) (key ++ v)

/-- The raw sheet-id cell of one data row (sheetUtils.ts, line 150):
`sheetIdIndex !== -1 ? values[sheetIdIndex] : ''` after quote stripping. -/
def sheetIdRaw (cfg : ColCfg) (row : String) : String :=
  match cfg.sheetIdIdx with
  | some i => ((parseCSVRow row).map stripQuotes).getD i ""
  | none => ""

/-- The per-row body of the `fetchSheetData` loop (sheetUtils.ts, lines
146-176): tokenize, strip quotes, capture the sheet id, drop excluded
positions, skip all-blank rows, build the record and attach `_sheetId`
when the captured value is non-empty.  Returns the record together with
its composite duplicate key. -/
def processRow (cfg : ColCfg) (row : String) : Option (List (String × String) × String) :=
  let values := (parseCSVRow row).map stripQuotes
  let sheetIdValue := sheetIdRaw cfg row
  let filteredValues := filterByIdx values cfg.emailTemplateIdx cfg.idColumnIdx cfg.sheetIdIdx
  if filteredValues.all (fun v => trimS v == "") then none
  else
    let b := buildRow cfg.headers filteredValues 0 [] ""
    let rowData := if sheetIdValue == "" then b.1 else objInsert b.1 "_sheetId" sheetIdValue
    some (rowData, b.2)

/-- The duplicate-detection loop of `fetchSheetData` (sheetUtils.ts, lines
143-183): `seen` is the set of composite keys already kept. -/
def processRowsAux (cfg : ColCfg) : List String → List String → List (List (String × String) × String)
  | [], _ => []
  | r :: rs, seen =>
    match processRow cfg r with
    | none => processRowsAux cfg rs seen
    | some (rec, key) =>
      if seen.contains key then processRowsAux cfg rs seen
      else (rec, key) :: processRowsAux cfg rs (key :: seen)

/-- The `seen` set after the loop has run over the given rows. -/
def seenAfter (cfg : ColCfg) : List String → List String → List String
  | [], seen => seen
  | r :: rs, seen =>
    match processRow cfg r with
    | none => seenAfter cfg rs seen
    | some (_, key) =>
      if seen.contains key then seenAfter cfg rs seen
      else seenAfter cfg rs (key :: seen)

/-- The result of `fetchSheetData` as seen by callers: records, displayed
headers and the optional error message (sheetUtils.ts, lines 66-70). -/
structure FetchResult where
  data : List (List (String × String))
  headers : List String
  error : Option String
deriving DecidableEq

/-- The error value produced by the `catch` block of `fetchSheetData`
(sheetUtils.ts, lines 192-199): empty data, empty headers, the message. -/
def errResult (msg : String) : FetchResult :=
  ⟨[], [], some msg⟩

/-- JS `csvText.split('\n').filter(row => row.trim())` (sheetUtils.ts,
line 106). -/
def splitLines (s : String) : List String :=
  ((splitOnC '\n' s.toList).map (fun l => String.mk l)).filter
    (fun r => !(trimS r == ""))

/-- The pure normalization core of `fetchSheetData` (sheetUtils.ts, lines
106-190), applied to the fetched CSV text: split lines, parse and strip
the header row, locate excluded columns, filter headers, run the row loop.
`name` is `config.name`, used only in the no-data error message. -/
def processCsv (name : String) (csvText : String) : FetchResult :=
  match splitLines csvText with
  | [] => errResult ("No data found in " ++ name)
  | headerLine :: dataLines =>
    let headerRow := (parseCSVRow headerLine).map stripQuotes
    let emailTemplateIdx := headerRow.findIdx? (fun h =>
      strIncludes (lowerS h) "email template" || strIncludes (lowerS h) "emailtemplate")
    let idColumnIdx := headerRow.findIdx? (fun h =>
      lowerS h == "id" || lowerS h == "campaign id" || lowerS h == "record id")
    let sheetIdIdx := headerRow.findIdx? (fun h =>
      strIncludes (lowerS h) "sheet id" || strIncludes (lowerS h) "sheetid")
    let filteredHeaders := filterByIdx headerRow emailTemplateIdx idColumnIdx sheetIdIdx
    let cfg : ColCfg := ⟨emailTemplateIdx, idColumnIdx, sheetIdIdx, filteredHeaders⟩
    ⟨(processRowsAux cfg dataLines []).map (fun p => p.1), filteredHeaders, none⟩

/-- The part of the HTTP response `fetchSheetData` inspects (sheetUtils.ts,
lines 87-104): `response.ok`, `response.status`, `response.url` and the
body text. -/
structure Response where
  ok : Bool
  status : Nat
  url : String
  text : String

/-- `fetchSheetData` (sheetUtils.ts, lines 66-200) as a function of the
received response: every `throw` is caught by the surrounding `try` and
converted by the `catch` block into `errResult` of the thrown message. -/
def fetchSheetDataModel (name : String) (resp : Response) : FetchResult :=
  if resp.ok = false then
    if resp.status = 302 ∨ resp.status = 301 ∨ strIncludes resp.url "accounts.google.com" then
      errResult ("Sheet \"" ++ name ++
        "\" appears to be private or inaccessible. Please ensure the sheet is publicly viewable.")
    else
      errResult ("Failed to fetch data from " ++ name ++ ". Status: " ++ toString resp.status)
  else if startsWithS (trimS resp.text) "<HTML>" || startsWithS (trimS resp.text) "<!DOCTYPE" then
    errResult ("Sheet \"" ++ name ++
      "\" appears to be private. Please make the sheet publicly viewable.")
  else
    processCsv name resp.text

/-- Reference semantics for the C1 comparison: tier 1 of the Header
Resolver as the spec words it, an exact case-sensitive match on
`displayName`. -/
def resolveTier1 (f : FormField) (hs : List String) : Option String :=
  if hs.contains f.displayName then some f.displayName else none

/-- Tier 2 of the Header Resolver as the spec words it: the first observed
header equal to `displayName` ignoring case. -/
def resolveTier2 (f : FormField) (hs : List String) : Option String :=
  hs.find? (fun h => lowerS h == lowerS f.displayName)

/-- Tier 3 of the Header Resolver as the spec words it: walk the aliases in
declaration order and take the first observed header where one lowercased
string contains the other. -/
def resolveTier3 (f : FormField) (hs : List String) : Option String :=
  firstVariantMatch (FIELD_MAPPING f.displayName) hs

/-- The three-tier resolution strategy exactly as the spec states it,
first hit winning; to be compared against `findColumnHeader`. -/
def resolveSpec (f : FormField) (hs : List String) : Option String :=
  match resolveTier1 f hs with
  | some h => some h
  | none =>
    match resolveTier2 f hs with
    | some h => some h
    | none => resolveTier3 f hs

/-- Whether the observed header `h` matches the canonical field `f` by any
of the three tiers, as claim C2 reads resolution of an observed header. -/
def fieldMatches (h : String) (f : FormField) : Bool :=
  h == f.displayName || lowerS h == lowerS f.displayName ||
  (FIELD_MAPPING f.displayName).any (fun v =>
    strIncludes (lowerS h) (lowerS v) || strIncludes (lowerS v) (lowerS h))

/-- Resolution of an observed header to a canonical display name in the
sense of claim C2: the first canonical field any tier matches. -/
def specResolveObserved (h : String) : Option String :=
  (FORM_FIELDS.find? (fun f => fieldMatches h f)).map (fun f => f.displayName)

/-! ### Small step lemmas about the tokenizer -/

theorem splitOnC_ne_nil (sep : Char) (l : List Char) : splitOnC sep l ≠ [] := by
  cases l with
  | nil => simp [splitOnC]
  | cons c rest =>
    simp only [splitOnC]
    split
    · simp
    · split <;> simp

theorem parseCSVRowAux_comma (rest cur : List Char) :
    parseCSVRowAux (',' :: rest) cur false = trimL cur :: parseCSVRowAux rest [] false := rfl

theorem parseCSVRowAux_ddquote (rest cur : List Char) (inQ : Bool) :
    parseCSVRowAux ('"' :: '"' :: rest) cur inQ = parseCSVRowAux rest (cur ++ ['"']) inQ := rfl

theorem parseCSVRowAux_quote (rest cur : List Char) (inQ : Bool)
    (h : rest.head? ≠ some '"') :
    parseCSVRowAux ('"' :: rest) cur inQ = parseCSVRowAux rest cur (!inQ) := by
  cases rest with
  | nil => rfl
  | cons r rs =>
    have hr : r ≠ '"' := by
      intro he
      exact h (by simp [he])
    simp [parseCSVRowAux, hr]

theorem parseCSVRowAux_other (c : Char) (rest cur : List Char) (inQ : Bool)
    (h1 : c ≠ '"') (h2 : c ≠ ',') :
    parseCSVRowAux (c :: rest) cur inQ = parseCSVRowAux rest (cur ++ [c]) inQ := by
  cases rest with
  | nil => simp [parseCSVRowAux, h1, h2]
  | cons r rs => simp [parseCSVRowAux, h1, h2]

theorem parseCSVRowAux_no_quote (l : List Char) (hq : '"' ∉ l) (cur : List Char) :
    parseCSVRowAux l cur false =
      match splitOnC ',' l with
      | [] => []
      | f :: fs => trimL (cur ++ f) :: fs.map trimL := by
  induction l generalizing cur with
  | nil => simp [parseCSVRowAux, splitOnC]
  | cons c rest ih =>
    have hc : c ≠ '"' := by
      intro he
      exact hq (he ▸ List.mem_cons_self c rest)
    have hrest : '"' ∉ rest := fun hm => hq (List.mem_cons_of_mem c hm)
    by_cases hcm : c = ','
    · subst hcm
      rw [parseCSVRowAux_comma, ih hrest []]
      obtain ⟨f, fs, hfs⟩ : ∃ f fs, splitOnC ',' rest = f :: fs := by
        cases hsp : splitOnC ',' rest with
        | nil => exact absurd hsp (splitOnC_ne_nil ',' rest)
        | cons f fs => exact ⟨f, fs, rfl⟩
      simp [splitOnC, hfs]
    · rw [parseCSVRowAux_other c rest cur false hc hcm, ih hrest (cur ++ [c])]
      obtain ⟨f, fs, hfs⟩ : ∃ f fs, splitOnC ',' rest = f :: fs := by
        cases hsp : splitOnC ',' rest with
        | nil => exact absurd hsp (splitOnC_ne_nil ',' rest)
        | cons f fs => exact ⟨f, fs, rfl⟩
      simp [splitOnC, hfs, hcm, List.append_assoc]

/-! ### Claim C1 -/

/-- C1: the CSV tokenizer equals the reference comma-split semantics: on a
line with no double quote it returns the comma-separated fields trimmed of
surrounding whitespace, a quoted comma does not delimit, and a doubled
quote inside a quoted region yields one literal quote. -/
theorem c1_tokenizer_comma_split :
    (∀ s : String, '"' ∉ s.toList →
      parseCSVRow s = (splitOnC ',' s.toList).map (fun f => String.mk (trimL f))) ∧
    parseCSVRow "a,\"b,c\",d" = ["a", "b,c", "d"] ∧
    parseCSVRow "a,\"b\"\"c\",d" = ["a", "b\"c", "d"] := by
  refine ⟨?_, by decide, by decide⟩
  intro s hq
  rw [parseCSVRow, parseCSVRowAux_no_quote s.toList hq []]
  obtain ⟨f, fs, hfs⟩ : ∃ f fs, splitOnC ',' s.toList = f :: fs := by
    cases hsp : splitOnC ',' s.toList with
    | nil => exact absurd hsp (splitOnC_ne_nil ',' s.toList)
    | cons f fs => exact ⟨f, fs, rfl⟩
  simp only [String.toList] at hfs
  simp [hfs]

/-- Witness for C1: the universal part instantiated at a concrete line. -/
theorem c1_tokenizer_comma_split_witness :
    '"' ∉ (" a ,b, c " : String).toList ∧
    parseCSVRow " a ,b, c " =
      (splitOnC ',' (" a ,b, c " : String).toList).map (fun f => String.mk (trimL f)) :=
  ⟨by decide, c1_tokenizer_comma_split.1 " a ,b, c " (by decide)⟩

/-! ### Claim C3 -/

/-- C3 counterexample: a doubled double-quote outside quotes does NOT
merely toggle the flag; `parseCSVRow` emits a literal quote, so the line
`a""b` tokenizes to the field `a"b`, not `ab` as the claim states. -/
theorem c3_quote_toggle_cex :
    parseCSVRow "a\"\"b" = ["a\"b"] ∧ parseCSVRow "a\"\"b" ≠ ["ab"] := by decide

/-- C3 amended: the doubled-quote rule is checked first and applies
regardless of the inside-quotes flag; only a double quote NOT followed by
another one toggles the flag, and `a""b` yields the single field `a"b`. -/
theorem c3_quote_toggle_amended :
    (∀ (rest cur : List Char) (inQ : Bool),
      parseCSVRowAux ('"' :: '"' :: rest) cur inQ = parseCSVRowAux rest (cur ++ ['"']) inQ) ∧
    (∀ (rest cur : List Char) (inQ : Bool), rest.head? ≠ some '"' →
      parseCSVRowAux ('"' :: rest) cur inQ = parseCSVRowAux rest cur (!inQ)) ∧
    parseCSVRow "a\"\"b" = ["a\"b"] :=
  ⟨fun rest cur inQ => parseCSVRowAux_ddquote rest cur inQ,
   fun rest cur inQ h => parseCSVRowAux_quote rest cur inQ h,
   by decide⟩

/-- Witness for the amended C3: the toggle rule applied at a concrete
suffix whose head is not a double quote. -/
theorem c3_quote_toggle_amended_witness :
    (['x'] : List Char).head? ≠ some '"' ∧
    parseCSVRowAux ('"' :: ['x']) [] false = parseCSVRowAux ['x'] [] (!false) :=
  ⟨by decide, c3_quote_toggle_amended.2.1 ['x'] [] false (by decide)⟩

/-! ### Claim C4 -/

/-- C4: `findColumnHeader` refines the spec's three-tier strategy (exact,
case-insensitive, variant substring in declaration order, first hit wins),
and the Budget field against `["budget", "Notes"]` resolves to "budget"
through the case-insensitive tier, the exact tier having failed. -/
theorem c4_resolver_tiers :
    (∀ (fk : String) (hs : List String) (f : FormField),
      FORM_FIELDS.find? (fun g => g.formKey == fk) = some f →
      findColumnHeader fk hs = resolveSpec f hs) ∧
    findColumnHeader "budget" ["budget", "Notes"] = some "budget" ∧
    resolveTier1 ⟨"budget", "Budget", true, "number", []⟩ ["budget", "Notes"] = none ∧
    resolveTier2 ⟨"budget", "Budget", true, "number", []⟩ ["budget", "Notes"] = some "budget" := by
  refine ⟨?_, by decide, by decide, by decide⟩
  intro fk hs f hf
  simp only [findColumnHeader, hf, resolveSpec, resolveTier1, resolveTier2, resolveTier3]
  by_cases hc : f.displayName ∈ hs <;> simp [hc]

/-- Witness for C4: the refinement instantiated at the Budget field. -/
theorem c4_resolver_tiers_witness :
    FORM_FIELDS.find? (fun g => g.formKey == "budget")
      = some ⟨"budget", "Budget", true, "number", []⟩ ∧
    findColumnHeader "budget" ["budget", "Notes"]
      = resolveSpec ⟨"budget", "Budget", true, "number", []⟩ ["budget", "Notes"] :=
  ⟨by decide, c4_resolver_tiers.1 "budget" ["budget", "Notes"] _ (by decide)⟩

/-! ### Claim C2 -/

/-- C2 counterexample: the observed header `start_date` resolves to the
canonical field Start Date in the claim's three-tier sense, yet the Row
Normalizer keys the record entry by the original text `start_date`,
because `findColumnHeader` receives the observed header in its formKey
position. -/
theorem c2_key_resolution_cex :
    specResolveObserved "start_date" = some "Start Date" ∧
    mappedKey "start_date" = "start_date" ∧
    (processCsv "S" "start_date\nfoo").data = [[("start_date", "foo")]] ∧
    ("start_date" : String) ≠ "Start Date" := by decide

/-- C2 amended: a record entry is keyed by a canonical displayName exactly
when the observed header is case-sensitively equal to some canonical
field's formKey; in every other case the original header text is the key. -/
theorem c2_key_resolution_amended (h : String) :
    mappedKey h =
      match FORM_FIELDS.find? (fun f => f.formKey == h) with
      | some f => f.displayName
      | none => h := by
  cases hf : FORM_FIELDS.find? (fun f => f.formKey == h) with
  | none => simp [mappedKey, findColumnHeader, hf]
  | some f =>
    have hmem : f ∈ FORM_FIELDS := List.mem_of_find?_eq_some hf
    have hd : f.displayName ∈ EXPECTED_SHEET_HEADERS :=
      List.mem_map_of_mem (fun g => g.displayName) hmem
    simp [mappedKey, findColumnHeader, hf, hd]

/-! ### Lemmas about the duplicate-detection loop -/

theorem processRowsAux_append (cfg : ColCfg) (xs ys : List String) :
    ∀ seen, processRowsAux cfg (xs ++ ys) seen =
      processRowsAux cfg xs seen ++ processRowsAux cfg ys (seenAfter cfg xs seen) := by
  induction xs with
  | nil => intro seen; simp [processRowsAux, seenAfter]
  | cons r rs ih =>
    intro seen
    simp only [List.cons_append, processRowsAux, seenAfter]
    cases hp : processRow cfg r with
    | none => exact ih seen
    | some p =>
      obtain ⟨rec, key⟩ := p
      by_cases hk : key ∈ seen <;> simp [hk, ih]

theorem seenAfter_contains (cfg : ColCfg) (xs : List String) :
    ∀ (seen : List String) (k : String), seen.contains k = true →
      (seenAfter cfg xs seen).contains k = true := by
  induction xs with
  | nil => intro seen k h; simpa [seenAfter] using h
  | cons r rs ih =>
    intro seen k h
    simp only [seenAfter]
    cases hp : processRow cfg r with
    | none => exact ih seen k h
    | some p =>
      obtain ⟨rec, key⟩ := p
      by_cases hk : seen.contains key
      · simp only [hk, if_pos]
        exact ih seen k h
      · simp only [hk, Bool.false_eq_true, if_neg, if_false]
        have hm : k ∈ seen := by simpa using h
        exact ih (key :: seen) k (by simp [hm])

theorem processRow_key_in_seenAfter (cfg : ColCfg) (xs : List String) :
    ∀ (seen : List String) (r : String) (rec : List (String × String)) (key : String),
      r ∈ xs → processRow cfg r = some (rec, key) →
      (seenAfter cfg xs seen).contains key = true := by
  induction xs with
  | nil =>
    intro seen r rec key hmem
    exact absurd hmem (List.not_mem_nil r)
  | cons x rs ih =>
    intro seen r rec key hmem hp
    simp only [seenAfter]
    rcases List.mem_cons.mp hmem with heq | hmem2
    · subst heq
      rw [hp]
      by_cases hk : seen.contains key
      · simp only [hk, if_pos]
        exact seenAfter_contains cfg rs seen key hk
      · simp only [hk, Bool.false_eq_true, if_neg, if_false]
        exact seenAfter_contains cfg rs (key :: seen) key (by simp [List.contains_cons])
    · cases hx : processRow cfg x with
      | none => exact ih seen r rec key hmem2 hp
      | some p =>
        obtain ⟨rec2, key2⟩ := p
        by_cases hk : seen.contains key2
        · simp only [hk, if_pos]
          exact ih seen r rec key hmem2 hp
        · simp only [hk, Bool.false_eq_true, if_neg, if_false]
          exact ih (key2 :: seen) r rec key hmem2 hp

theorem processRowsAux_all_seen (cfg : ColCfg) (ys : List String) :
    ∀ seen, (∀ r ∈ ys, ∀ (rec : List (String × String)) (key : String),
        processRow cfg r = some (rec, key) → seen.contains key = true) →
      processRowsAux cfg ys seen = [] := by
  induction ys with
  | nil => intro seen _; rfl
  | cons r rs ih =>
    intro seen h
    simp only [processRowsAux]
    cases hp : processRow cfg r with
    | none => exact ih seen (fun r2 hm => h r2 (List.mem_cons_of_mem r hm))
    | some p =>
      obtain ⟨rec, key⟩ := p
      have hseen := h r (List.mem_cons_self r rs) rec key hp
      simp only [hseen, if_pos]
      exact ih seen (fun r2 hm => h r2 (List.mem_cons_of_mem r hm))

theorem processRowsAux_replay (cfg : ColCfg) (rows seen : List String) :
    processRowsAux cfg (rows ++ rows) seen = processRowsAux cfg rows seen := by
  rw [processRowsAux_append]
  have hnil : processRowsAux cfg rows (seenAfter cfg rows seen) = [] :=
    processRowsAux_all_seen cfg rows _
      (fun r hm rec key hp => processRow_key_in_seenAfter cfg rows seen r rec key hm hp)
  simp [hnil]

theorem processRowsAux_keys_nodup (cfg : ColCfg) (rows : List String) :
    ∀ seen, ((processRowsAux cfg rows seen).map Prod.snd).Nodup ∧
      ∀ k ∈ (processRowsAux cfg rows seen).map Prod.snd, seen.contains k = false := by
  induction rows with
  | nil => intro seen; simp [processRowsAux]
  | cons r rs ih =>
    intro seen
    simp only [processRowsAux]
    cases hp : processRow cfg r with
    | none => exact ih seen
    | some p =>
      obtain ⟨rec, key⟩ := p
      by_cases hk : seen.contains key
      · simp only [hk, if_pos]
        exact ih seen
      · simp only [hk, Bool.false_eq_true, if_neg, if_false, List.map_cons]
        constructor
        · rw [List.nodup_cons]
          refine ⟨fun hmem => ?_, (ih (key :: seen)).1⟩
          have := (ih (key :: seen)).2 key hmem
          simp [List.contains_cons] at this
        · intro k hk2
          rcases List.mem_cons.mp hk2 with heq | hmem2
          · subst heq
            simpa using hk
          · have := (ih (key :: seen)).2 k hmem2
            simp only [List.contains_cons, Bool.or_eq_false_iff] at this
            exact this.2

/-! ### Claim C5 -/

/-- C5: the Row Normalizer keeps the first row of any composite-key class
and discards the later ones: a fresh key is emitted and recorded, the
emitted composite keys are pairwise distinct, replaying the same rows over
the same run adds nothing (idempotence of the output set), and of two
identical data rows only the first yields a record. -/
theorem c5_dedup :
    (∀ (cfg : ColCfg) (r : String) (rs seen : List String)
        (rec : List (String × String)) (key : String),
      processRow cfg r = some (rec, key) → seen.contains key = false →
      processRowsAux cfg (r :: rs) seen = (rec, key) :: processRowsAux cfg rs (key :: seen)) ∧
    (∀ (cfg : ColCfg) (rows seen : List String),
      ((processRowsAux cfg rows seen).map Prod.snd).Nodup) ∧
    (∀ (cfg : ColCfg) (rows seen : List String),
      processRowsAux cfg (rows ++ rows) seen = processRowsAux cfg rows seen) ∧
    (processCsv "S" "A\nx\nx").data = [[("A", "x")]] := by
  refine ⟨?_, fun cfg rows seen => (processRowsAux_keys_nodup cfg rows seen).1,
    processRowsAux_replay, by decide⟩
  intro cfg r rs seen rec key hp hk
  have hk2 : key ∉ seen := by simpa using hk
  simp [processRowsAux, hp, hk2]

/-- Witness for C5: the fresh-key step at a concrete one-column sheet. -/
theorem c5_dedup_witness :
    processRow ⟨none, none, none, ["A"]⟩ "x" = some ([("A", "x")], "x") ∧
    ([] : List String).contains "x" = false ∧
    processRowsAux ⟨none, none, none, ["A"]⟩ ["x", "x"] [] =
      ([("A", "x")], "x") :: processRowsAux ⟨none, none, none, ["A"]⟩ ["x"] ["x"] :=
  ⟨by decide, by decide,
   c5_dedup.1 ⟨none, none, none, ["A"]⟩ "x" ["x"] [] [("A", "x")] "x" (by decide) (by decide)⟩

/-! ### Claim C6 -/

/-- C6: for the header row `Campaign Name,Email Template,Sheet ID` and the
data row `Foo,<template>,abc123`, normalization drops the email-template
and sheet-id columns from the displayed headers and produces exactly one
record keyed `Campaign Name`, with the sheet id retained out-of-band under
`_sheetId`. -/
theorem c6_exclusion_example :
    (processCsv "S" "Campaign Name,Email Template,Sheet ID\nFoo,<template>,abc123").headers
      = ["Campaign Name"] ∧
    (processCsv "S" "Campaign Name,Email Template,Sheet ID\nFoo,<template>,abc123").data
      = [[("Campaign Name", "Foo"), ("_sheetId", "abc123")]] ∧
    (processCsv "S" "Campaign Name,Email Template,Sheet ID\nFoo,<template>,abc123").error
      = none := by
  decide

/-! ### Claim C7 -/

/-- C7: `extraFields` is exactly the observed headers that are
case-sensitively different from every canonical displayName, so a
differently-cased header still counts as extra even though required-field
resolution accepts it (the `["campaign name"]` run shows both at once),
and the 3-header example leaves exactly the nine other required fields
missing. -/
theorem c7_extra_fields :
    (∀ (hs : List String) (h : String),
      h ∈ (validateSheetStructure hs).extraFields ↔
        h ∈ hs ∧ ∀ f ∈ FORM_FIELDS, f.displayName ≠ h) ∧
    (validateSheetStructure ["Campaign Name", "Brand Name", "Extra Col"]).extraFields
      = ["Extra Col"] ∧
    (validateSheetStructure ["Campaign Name", "Brand Name", "Extra Col"]).missingFields
      = ["Influencers Followers", "Campaign Type", "Start Date", "End Date", "Niche",
         "Priority", "Budget", "Deliverables", "Platforms"] ∧
    (validateSheetStructure ["campaign name"]).extraFields = ["campaign name"] ∧
    (validateSheetStructure ["campaign name"]).missingFields
      = ["Influencers Followers", "Campaign Type", "Start Date", "Brand Name", "End Date",
         "Niche", "Priority", "Budget", "Deliverables", "Platforms"] := by
  refine ⟨?_, by decide, by decide, by decide, by decide⟩
  intro hs h
  simp only [validateSheetStructure, List.mem_filter, Bool.not_eq_true', List.any_eq_false]
  simp

/-! ### Claim C8 -/

/-- C8 counterexample: two distinct canonical fields claim the same
observed header: against `["campaign"]`, both the Campaign Name and the
Campaign Type field resolve to the observed header `campaign`. -/
theorem c8_unique_claim_cex :
    findColumnHeader "campaignName" ["campaign"] = some "campaign" ∧
    findColumnHeader "campaignType" ["campaign"] = some "campaign" ∧
    ("campaignName" : String) ≠ "campaignType" := by decide

/-- C8 amended: resolution is attempted independently per canonical field
and the at-most-one-claim invariant does not hold: there are two distinct
canonical fields whose resolutions against the same observed headers both
succeed and coincide. -/
theorem c8_unique_claim_amended :
    ∃ (hs : List String) (f g : FormField), f ∈ FORM_FIELDS ∧ g ∈ FORM_FIELDS ∧
      f.formKey ≠ g.formKey ∧ (findColumnHeader f.formKey hs).isSome = true ∧
      findColumnHeader f.formKey hs = findColumnHeader g.formKey hs := by
  refine ⟨["campaign"], ⟨"campaignName", "Campaign Name", true, "text", []⟩,
    ⟨"campaignType", "Campaign Type", true, "select",
      ["Brand Collaboration", "Product Launch", "Event Promotion", "Content Creation", "Other"]⟩,
    by decide, by decide, by decide, by decide, by decide⟩

/-! ### Claim C9 -/

/-- C9: on every classification failure of the fetch pipeline — transport
failure (`ok = false`, e.g. status 302), an HTML payload, or content with
no usable lines — the result carries an error message and both the header
list and the record list are empty; nothing escapes the boundary. -/
theorem c9_error_boundary (name : String) (resp : Response)
    (h : resp.ok = false ∨ startsWithS (trimS resp.text) "<HTML>" = true ∨
         startsWithS (trimS resp.text) "<!DOCTYPE" = true ∨ splitLines resp.text = []) :
    (fetchSheetDataModel name resp).error.isSome = true ∧
    (fetchSheetDataModel name resp).data = [] ∧
    (fetchSheetDataModel name resp).headers = [] := by
  have herr : ∀ msg : String, (errResult msg).error.isSome = true ∧
      (errResult msg).data = [] ∧ (errResult msg).headers = [] := by
    intro msg
    simp [errResult]
  unfold fetchSheetDataModel
  by_cases hok : resp.ok = false
  · rw [if_pos hok]
    split <;> exact herr _
  · rw [if_neg hok]
    by_cases hh : (startsWithS (trimS resp.text) "<HTML>"
        || startsWithS (trimS resp.text) "<!DOCTYPE") = true
    · simp only [hh, if_pos]
      exact herr _
    · simp only [hh, Bool.false_eq_true, if_neg, if_false]
      rcases h with h | h | h | h
      · exact absurd h hok
      · exact absurd (by simp [h]) hh
      · exact absurd (by simp [h]) hh
      · unfold processCsv
        rw [h]
        exact herr _

/-- Witness for C9: a 302 response yields the uniform empty error result. -/
theorem c9_error_boundary_witness :
    (fetchSheetDataModel "S" ⟨false, 302, "", ""⟩).error.isSome = true ∧
    (fetchSheetDataModel "S" ⟨false, 302, "", ""⟩).data = [] ∧
    (fetchSheetDataModel "S" ⟨false, 302, "", ""⟩).headers = [] :=
  c9_error_boundary "S" ⟨false, 302, "", ""⟩ (Or.inl (by decide))

/-! ### Lemmas about record keys -/

theorem any_key_map_update (obj : List (String × String)) (k' v k : String) :
    (obj.map (fun p => if p.1 == k' then (k', v) else p)).any (fun p => p.1 == k)
      = obj.any (fun p => p.1 == k) := by
  induction obj with
  | nil => rfl
  | cons p ps ih =>
    by_cases hp : (p.1 == k') = true
    · have hpk : p.1 = k' := eq_of_beq hp
      simp only [List.map_cons, List.any_cons, if_pos hp, ih, hpk]
      simp
    · simp only [List.map_cons, List.any_cons, if_neg hp, ih]

theorem objInsert_hasKey (obj : List (String × String)) (k' v k : String) :
    recHasKey (objInsert obj k' v) k = (recHasKey obj k || (k' == k)) := by
  unfold objInsert recHasKey
  by_cases hmem : obj.any (fun p => p.1 == k') = true
  · rw [if_pos hmem, any_key_map_update]
    by_cases hk : (k' == k) = true
    · have hkk : k' = k := eq_of_beq hk
      subst hkk
      simp [hmem]
    · simp only [Bool.not_eq_true] at hk
      simp [hk]
  · simp only [Bool.not_eq_true] at hmem
    rw [if_neg (by simp [hmem])]
    simp [List.any_append]

theorem buildRow_hasKey (hs : List String) (vals : List String) :
    ∀ (idx : Nat) (obj : List (String × String)) (key k : String),
      recHasKey (buildRow hs vals idx obj key).1 k =
        (recHasKey obj k || hs.any (fun hd => mappedKey hd == k)) := by
  induction hs with
  | nil =>
    intro idx obj key k
    simp [buildRow]
  | cons h rest ih =>
    intro idx obj key k
    simp only [buildRow]
    rw [ih, objInsert_hasKey]
    simp [Bool.or_assoc]

/-! ### Claim C10 -/

/-- C10 counterexample: with the header row `Sheet ID,_sheetId` and the
data row `,x`, the sheet-id column is located at position 0 and that row's
value there is the empty string, yet the produced record does contain the
key `_sheetId` — carried by the surviving second column whose header text
is literally `_sheetId`. -/
theorem c10_sheetid_key_cex :
    (processCsv "S" "Sheet ID,_sheetId\n,x").data = [[("_sheetId", "x")]] ∧
    recHasKey [("_sheetId", "x")] "_sheetId" = true ∧
    ((parseCSVRow ",x").map stripQuotes).getD 0 "" = "" := by decide

/-- C10 amended: a normalized record contains the key `_sheetId` iff the
captured sheet-id value of the row is non-empty, or some retained header
is mapped verbatim to the literal text `_sheetId` (possible only when a
later sheet-id-like column survives the positional exclusion). -/
theorem c10_sheetid_key_amended (cfg : ColCfg) (row : String)
    (rec : List (String × String)) (key : String)
    (h : processRow cfg row = some (rec, key)) :
    recHasKey rec "_sheetId" = true ↔
      (sheetIdRaw cfg row ≠ "" ∨ ∃ hd ∈ cfg.headers, mappedKey hd = "_sheetId") := by
  simp only [processRow] at h
  split at h
  · exact absurd h (by simp)
  · rw [Option.some_inj, Prod.mk.injEq] at h
    obtain ⟨h1, h2⟩ := h
    subst h1
    by_cases hsv : (sheetIdRaw cfg row == "") = true
    · have hsv2 : sheetIdRaw cfg row = "" := eq_of_beq hsv
      rw [if_pos hsv, buildRow_hasKey]
      simp [recHasKey, hsv2, List.any_eq_true]
    · rw [if_neg hsv, objInsert_hasKey]
      have hsv2 : sheetIdRaw cfg row ≠ "" := by
        intro he
        exact hsv (by simp [he])
      simp [hsv2]

/-- Witness for the amended C10: the iff at the concrete two-column sheet
of the counterexample. -/
theorem c10_sheetid_key_amended_witness :
    processRow ⟨none, none, some 0, ["_sheetId"]⟩ ",x" = some ([("_sheetId", "x")], "x") ∧
    (recHasKey [("_sheetId", "x")] "_sheetId" = true ↔
      (sheetIdRaw ⟨none, none, some 0, ["_sheetId"]⟩ ",x" ≠ "" ∨
        ∃ hd ∈ (["_sheetId"] : List String), mappedKey hd = "_sheetId")) :=
  ⟨by decide,
   c10_sheetid_key_amended ⟨none, none, some 0, ["_sheetId"]⟩ ",x" [("_sheetId", "x")] "x"
     (by decide)⟩

end Campaign

